import Mathlib

/-!
Verification of the synchronization engine of the Workiz-to-Google-Sheets
server (`server.js`) against its natural-language specification.

The JavaScript source is shallowly embedded: each class or endpoint fragment
relevant to a claim is translated into an executable Lean definition
(timestamps become `Nat` milliseconds, thrown errors become explicit result
constructors, the document store becomes lists of records), and the claims
are settled as theorems about those definitions.
-/

namespace WorkizSync

/-! ## Circuit breaker (`class CircuitBreaker`, server.js lines 16-83)

JS fields: `failureThreshold`, `recoveryTimeout`, `failureCount`,
`lastFailureTime` (initially `null`), `state` ("CLOSED" / "OPEN" /
"HALF_OPEN").  `Date.now()` is modelled as a `Nat` millisecond clock passed
to `execute`; the wrapped async operation is modelled by the boolean
`opSucceeds` (did `await operation()` resolve or throw). -/

/-- The three values of the JS `state` field.  `OPEN` is spelled `opened`
because `open` is a Lean keyword. -/
inductive CBState where
  | closed
  | opened
  | halfOpen
deriving DecidableEq, Repr

/-- State of one `CircuitBreaker` instance. `lastFailureTime = none` models
the initial JS `null`; `Option.getD 0` below matches JS coercing `null` to
`0` in arithmetic. -/
structure CircuitBreaker where
  failureThreshold : Nat
  recoveryTimeout : Nat
  failureCount : Nat
  lastFailureTime : Option Nat
  state : CBState
deriving DecidableEq, Repr

/-- The JS constructor `new CircuitBreaker(threshold, timeout)`. -/
def CircuitBreaker.mk0 (failureThreshold recoveryTimeout : Nat) : CircuitBreaker :=
  { failureThreshold := failureThreshold
    recoveryTimeout := recoveryTimeout
    failureCount := 0
    lastFailureTime := none
    state := .closed }

/-- JS `onSuccess()`: reset the failure count and close the breaker. -/
def CircuitBreaker.onSuccess (cb : CircuitBreaker) : CircuitBreaker :=
  { cb with failureCount := 0, state := .closed }

/-- JS `onFailure()`: `this.failureCount++`, stamp the clock, and open the
breaker when the incremented count reaches the threshold (otherwise the
state is left unchanged). -/
def CircuitBreaker.onFailure (cb : CircuitBreaker) (now : Nat) : CircuitBreaker :=
  { cb with
      failureCount := cb.failureCount + 1
      lastFailureTime := some now
      state := if cb.failureThreshold ≤ cb.failureCount + 1 then .opened else cb.state }

/-- JS `Date.now() - this.lastFailureTime >= this.recoveryTimeout`, computed
over `Int` so that a clock earlier than the last failure behaves like the JS
negative difference. -/
def CircuitBreaker.cooldownElapsed (cb : CircuitBreaker) (now : Nat) : Bool :=
  (cb.recoveryTimeout : Int) ≤ (now : Int) - ((cb.lastFailureTime.getD 0 : Nat) : Int)

/-- The admission prologue of JS `execute` (lines 27-34): when `OPEN`, either
move to `HALF_OPEN` (cooldown elapsed) or reject.  Returns the updated
breaker and whether the wrapped operation is admitted. -/
def CircuitBreaker.admission (cb : CircuitBreaker) (now : Nat) : CircuitBreaker × Bool :=
  match cb.state with
  | .opened =>
      if cb.cooldownElapsed now then ({ cb with state := .halfOpen }, true)
      else (cb, false)
  | _ => (cb, true)

/-- Outcome of one `execute` call: the `CircuitOpenError` throw (JS message
"Circuit breaker is OPEN - too many recent failures"), or the wrapped
operation's own resolution or rejection. -/
inductive ExecOutcome where
  | circuitOpenError
  | succeeded
  | opFailed
deriving DecidableEq, Repr

/-- JS `execute(operation)`: returns the new breaker state, the outcome, and
whether the wrapped operation was invoked at all. -/
def CircuitBreaker.execute (cb : CircuitBreaker) (now : Nat) (opSucceeds : Bool) :
    CircuitBreaker × ExecOutcome × Bool :=
  match cb.admission now with
  | (cb1, false) => (cb1, .circuitOpenError, false)
  | (cb1, true) =>
      if opSucceeds then (cb1.onSuccess, .succeeded, true)
      else (cb1.onFailure now, .opFailed, true)

/-- Reachability invariant of the breaker: in `OPEN` or `HALF_OPEN` the
failure count has reached the threshold and a failure time is recorded
(both are established by `onFailure`, the only way to leave `CLOSED`). -/
abbrev CBWellFormed (cb : CircuitBreaker) : Prop :=
  (cb.state = .opened ∨ cb.state = .halfOpen) →
    (cb.failureThreshold ≤ cb.failureCount ∧ cb.lastFailureTime ≠ none)

/-! ## Retry handler (`class RetryHandler`, server.js lines 90-143)

JS signature: `withRetry(operation, maxRetries = 3, delay = 1000,
circuitBreaker = null)`.  The loop `for (attempt = 1; attempt <= maxRetries;
attempt++)` awaits the operation; on error it rethrows circuit-breaker
rejections immediately (`error.message.includes("Circuit breaker is OPEN")`),
waits `10000 * 2^(attempt-1)` ms when the error is classified as a 520
(`error.message.includes("520") || error.response.status === 520`) - even on
the final attempt, after which the loop exits and the function returns
`undefined`, since the saved `lastError` is never thrown - rethrows the
error when `attempt === maxRetries` otherwise, and else waits
`delay * 2^(attempt-1)` ms before the next attempt.

The operation is modelled by the outcome of each attempt (`none` = the
promise resolves, `some e` = it rejects with error `e`); the second
component of the result collects the `setTimeout` waits, in order, so the
backoff schedule is observable. -/

/-- A JS error as `withRetry` classifies it: does its message contain
"Circuit breaker is OPEN", is it a 520-style error, plus an identity tag so
distinct errors are distinguishable. -/
structure JsError where
  hasCircuitOpenMsg : Bool
  has520 : Bool
  tag : Nat
deriving DecidableEq, Repr

/-- How a `withRetry` call ends: the operation resolved, an error was
rethrown to the caller, or the loop was exhausted and the JS function
returned `undefined`. -/
inductive RetryResult where
  | success
  | raised (e : JsError)
  | returnedUndefined
deriving DecidableEq, Repr

namespace RetryHandler

/-- One iteration of the JS retry loop, with `fuel` = remaining iterations
(`maxRetries - attempt + 1`); structural recursion on `fuel` mirrors the
`for` loop exactly. -/
def withRetryGo (op : Nat → Option JsError) (maxRetries delay : Nat) :
    Nat → Nat → List Nat → RetryResult × List Nat
  | 0, _, waits => (.returnedUndefined, waits)
  | fuel + 1, attempt, waits =>
      match op attempt with
      | none => (.success, waits)
      | some e =>
          if e.hasCircuitOpenMsg then (.raised e, waits)
          else if e.has520 then
            withRetryGo op maxRetries delay fuel (attempt + 1)
              (waits ++ [10000 * 2 ^ (attempt - 1)])
          else if attempt = maxRetries then (.raised e, waits)
          else
            withRetryGo op maxRetries delay fuel (attempt + 1)
              (waits ++ [delay * 2 ^ (attempt - 1)])

/-- JS `RetryHandler.withRetry(operation, maxRetries, delay)` (the
`circuitBreaker = null` path; breaker rejections are modelled as operation
outcomes with `hasCircuitOpenMsg`). -/
def withRetry (op : Nat → Option JsError) (maxRetries delay : Nat) :
    RetryResult × List Nat :=
  withRetryGo op maxRetries delay maxRetries 1 []

end RetryHandler

/-! ## Batch splitting (server.js lines 2480-2484 and 2908-2911)

`const batches = []; for (let i = 0; i < jobs.length; i += batchSize)
batches.push(jobs.slice(i, i + batchSize));` -/

/-- The batch-splitting loop.  A zero batch size would make the JS loop spin
forever; it is mapped to `[]` and never occurs (call sites pass 29, 15 or
10). -/
def chunkList {α : Type} : Nat → List α → List (List α)
  | _, [] => []
  | 0, _ :: _ => []
  | k + 1, x :: xs => ((x :: xs).take (k + 1)) :: chunkList (k + 1) ((x :: xs).drop (k + 1))
termination_by _ l => l.length
decreasing_by simp; omega

/-- Modelled from the spec: the batch lifecycle manager's per-entity resume
record `EntitySyncState` (spec section 3 and 4.4, and the "Batch Account
States" schema of BATCH_PROCESSING_OPTIMIZATION.md with its
`nextBatchToProcess` field).  The server-side implementation of this record
(`/api/init-batch-update`, `/api/process-batch/:batchId`) is absent from the
repository - only its dashboard caller (`BatchManager.tsx`) and the schema
document are present - so the record and its operations are modelled here
from the spec's words. -/
structure EntitySyncState where
  totalBatches : Nat
  nextBatchToProcess : Nat
  lastBatchCompleted : Option Nat
  status : String
deriving DecidableEq, Repr

/-- Modelled from the spec: `initialize` persists an EntitySyncState whose
processing starts at batch 0. -/
def EntitySyncState.init (totalBatches : Nat) : EntitySyncState :=
  ⟨totalBatches, 0, none, "processing"⟩

/-- Modelled from the spec: `nextBatch` returns the batch index at
`nextBatchToProcess`, or `none` once all batches are consumed or the state
is no longer `processing`. -/
def nextBatch (st : EntitySyncState) : Option Nat :=
  if st.status = "processing" ∧ st.nextBatchToProcess < st.totalBatches then
    some st.nextBatchToProcess
  else none

/-- Modelled from the spec: `completeBatch` records the completed batch and
advances `nextBatchToProcess`; completing the final batch marks the entity
`completed`. -/
def completeBatchES (st : EntitySyncState) (i : Nat) : EntitySyncState :=
  { st with
      nextBatchToProcess := i + 1
      lastBatchCompleted := some i
      status := if i + 1 = st.totalBatches then "completed" else st.status }

/-- Modelled from the spec: one invocation's driver loop - repeatedly take
`nextBatch`, process it, `completeBatch` it - with fuel for the remaining
batch count.  Returns the indices processed, in order, and the final
state. -/
def resumeRunGo : Nat → EntitySyncState → List Nat × EntitySyncState
  | 0, st => ([], st)
  | fuel + 1, st =>
      match nextBatch st with
      | none => ([], st)
      | some i =>
          let r := resumeRunGo fuel (completeBatchES st i)
          (i :: r.1, r.2)

/-- Modelled from the spec: a fresh invocation reads the persisted state and
drives it to completion from `nextBatchToProcess`. -/
def resumeRun (st : EntitySyncState) : List Nat × EntitySyncState :=
  resumeRunGo (st.totalBatches - st.nextBatchToProcess) st

/-! ## Reconciliation (server.js lines 442-660 `POST /api/sync-jobs/:accountId`
and lines 1037-1299 `POST /api/trigger-sync/:accountId`)

A stored job is modelled by its natural key `UUID` and its business
timestamp `JobDateTime` (a `Nat`; ISO-string comparison against the cutoff
is order-isomorphic to numeric comparison).  The per-account `jobs`
collection is a `List Job`; `updateOne({UUID}, {$set: job}, {upsert: true})`
replaces the first record with that UUID or appends. -/

/-- A document of the `jobs` collection, reduced to the fields the
reconciliation logic reads. -/
structure Job where
  uuid : String
  jobDateTime : Nat
deriving DecidableEq, Repr

/-- MongoDB `updateOne` semantics on an array-modelled collection: apply `f`
to the first element satisfying `p`, leave the rest unchanged. -/
def setFirst {α : Type} (p : α → Bool) (f : α → α) : List α → List α
  | [] => []
  | x :: xs => if p x then f x :: xs else x :: setFirst p f xs

/-- One `{updateOne: {filter: {UUID: job.UUID}, update: {$set: job},
upsert: true}}` bulk operation. -/
def upsertOne (store : List Job) (r : Job) : List Job :=
  if store.any (fun s => s.uuid == r.uuid) then
    setFirst (fun s => s.uuid == r.uuid) (fun _ => r) store
  else store ++ [r]

/-- The `bulkWrite` of one upsert per upstream job, in order. -/
def upsertAll (store : List Job) (rs : List Job) : List Job :=
  rs.foldl upsertOne store

/-- Result of the sync-jobs reconciliation: the surviving collection, the
records removed by the age-based `deleteMany`, and the UUIDs for which an
individual verify-by-key fetch was issued. -/
structure SyncJobsResult where
  finalStore : List Job
  deleted : List Job
  verifyRequests : List String
deriving DecidableEq, Repr

/-- `POST /api/sync-jobs/:accountId` reconciliation (lines 543-576): upsert
every fetched job, then `deleteMany({JobDateTime: {$lt: cutoff}})` - every
stored record older than the cutoff, in or out of the upstream set, is
deleted, and no per-record verification fetch is ever issued (the endpoint
performs exactly one list fetch). -/
def syncJobsReconcile (store rs : List Job) (cutoff : Nat) : SyncJobsResult :=
  let afterUpsert := upsertAll store rs
  { finalStore := afterUpsert.filter (fun j => !decide (j.jobDateTime < cutoff))
    deleted := afterUpsert.filter (fun j => decide (j.jobDateTime < cutoff))
    verifyRequests := [] }

/-- Outcome of the individual `job/get/:UUID` verification fetch in
trigger-sync: fresh data (`flag && data`), "gone upstream" (falsy
`flag`/`data`), or a fetch error (non-ok response or exhausted retries). -/
inductive VerifyResult where
  | found (fresh : Job)
  | notFound
  | fetchError
deriving DecidableEq, Repr

/-- Per-record step of the trigger-sync loop (lines 1119-1208): delete when
older than the cutoff; otherwise fetch the job by UUID and update it
(found), delete it (gone upstream), or keep it unchanged (fetch error).
Returns the record's fate and whether a verify fetch was issued. -/
def processExisting (cutoff : Nat) (verify : String → VerifyResult) (j : Job) :
    Option Job × Bool :=
  if j.jobDateTime < cutoff then (none, false)
  else
    match verify j.uuid with
    | .found fresh => (some fresh, true)
    | .notFound => (none, true)
    | .fetchError => (some j, true)

/-- Result of the trigger-sync reconciliation: the surviving collection and
the UUIDs individually verified by a `job/get/:UUID` fetch. -/
structure TriggerSyncResult where
  finalStore : List Job
  verifiedUuids : List String
deriving DecidableEq, Repr

/-- `POST /api/trigger-sync/:accountId` reconciliation (lines 1069-1208):
upsert every fetched job, then walk the whole stored set, deleting records
older than the 365-day cutoff and verifying every remaining record with an
individual fetch. -/
def triggerSyncReconcile (store rs : List Job) (cutoff : Nat)
    (verify : String → VerifyResult) : TriggerSyncResult :=
  let afterUpsert := upsertAll store rs
  { finalStore := afterUpsert.filterMap (fun j => (processExisting cutoff verify j).1)
    verifiedUuids :=
      (afterUpsert.filter (fun j => (processExisting cutoff verify j).2)).map Job.uuid }

/-! ## Upstream response classification (server.js lines 147-172
`APIManager.fetchWithTimeout` and lines 467-497, the fetch operation of
`POST /api/sync-jobs/:accountId`) -/

/-- An upstream HTTP response, reduced to the fields the classifier reads. -/
structure HttpResponse where
  status : Nat
  body : String
deriving DecidableEq, Repr

/-- JS `Response.ok`: status in the inclusive range 200-299. -/
def respOk (r : HttpResponse) : Bool :=
  decide (200 ≤ r.status) && decide (r.status ≤ 299)

/-- The typed failures of the fetch wrapper: per-call timeout, 520-class
overload, or a plain upstream error carrying the status. -/
inductive FetchError where
  | timeoutErr
  | err520
  | apiError (status : Nat)
deriving DecidableEq, Repr

/-- JS `APIManager.fetchWithTimeout`: `none` models the AbortController
timeout; a status of exactly 520 is rethrown as the 520 error; any other
response is returned untouched - the body is not read here. -/
def fetchWithTimeout (r : Option HttpResponse) : Except FetchError HttpResponse :=
  match r with
  | none => .error .timeoutErr
  | some resp => if resp.status == 520 then .error .err520 else .ok resp

/-- JS `String.prototype.includes` on the character list of a string. -/
def charsInclude (pat : List Char) : List Char → Bool
  | [] => pat.isPrefixOf []
  | c :: rest => pat.isPrefixOf (c :: rest) || charsInclude pat rest

/-- `s.includes(pat)` for JS strings. -/
def strIncludes (s pat : String) : Bool :=
  charsInclude pat.toList s.toList

/-- The HTML-error-page content sniff of server.js lines 476-480:
`errorText.includes('<div class="text-container">') ||
errorText.includes("Oops!") || errorText.includes("Something went wrong")`. -/
def isHtmlErrorPage (body : String) : Bool :=
  strIncludes body "<div class=\"text-container\">" ||
  strIncludes body "Oops!" ||
  strIncludes body "Something went wrong"

/-- The retried fetch operation of `POST /api/sync-jobs/:accountId`
(lines 468-493): after `fetchWithTimeout`, only a NON-ok response has its
body read and sniffed (`if (!resp.ok) { ... }`); HTML error pages there are
reclassified as the 520 error, other non-ok responses raise a plain API
error, and an ok response is returned as-is, body unread. -/
def syncJobsFetchOp (r : Option HttpResponse) : Except FetchError HttpResponse :=
  match fetchWithTimeout r with
  | .error e => .error e
  | .ok resp =>
      if !respOk resp then
        if isHtmlErrorPage resp.body then .error .err520
        else .error (.apiError resp.status)
      else .ok resp

/-! ## Sync session documents and the batch-completion update
(server.js lines 2580-2620) -/

/-- One element of an account's `batches` array in a `syncSessions`
document.  Fields written by the completion update are `Option`-valued:
absent before the first `$set`. -/
structure BatchEntry where
  batchIndex : Nat
  status : String
  endTime : Option Nat
  duration : Option Nat
  processedJobs : Option Nat
  failedJobs : Option Nat
deriving DecidableEq, Repr

/-- One element of the `accounts` array in a `syncSessions` document. -/
structure AccountEntry where
  accountId : String
  status : String
  progress : Nat
  totalJobs : Nat
  processedJobs : Nat
  updatedJobs : Option Nat
  failedJobs : Option Nat
  endTime : Option Nat
  duration : Option Nat
  batches : List BatchEntry
deriving DecidableEq, Repr

/-- MongoDB `arrayFilters` (`$[account]` / `$[batch]`) semantics: update
every element matching the filter. -/
def setAll {α : Type} (p : α → Bool) (f : α → α) (l : List α) : List α :=
  l.map fun x => if p x then f x else x

/-- The `$set` applied to the matched batch element: status `completed`
plus end time, duration, processed and failed counts (lines 2588-2596). -/
def completeBatchEntryTransform (endTime duration processed failed : Nat)
    (b : BatchEntry) : BatchEntry :=
  { b with
      status := "completed"
      endTime := some endTime
      duration := some duration
      processedJobs := some processed
      failedJobs := some failed }

/-- The account-level effect of the batch-status `updateOne` (arrayFilters
match the account and the batch index). -/
def completeBatchAccountTransform (batchIndex endTime duration processed failed : Nat)
    (a : AccountEntry) : AccountEntry :=
  { a with
      batches := setAll (fun b => b.batchIndex == batchIndex)
        (completeBatchEntryTransform endTime duration processed failed) a.batches }

/-- The `$set` of the follow-up progress `updateOne` (lines 2608-2620),
which targets the first matching account element (`accounts.$`). -/
def progressTransform (processedJobs progress : Nat) (a : AccountEntry) : AccountEntry :=
  { a with processedJobs := processedJobs, progress := progress }

/-- The batch-status `updateOne` on the session's accounts array. -/
def completeBatchUpdate (accounts : List AccountEntry) (accountId : String)
    (batchIndex endTime duration processed failed : Nat) : List AccountEntry :=
  setAll (fun a => a.accountId == accountId)
    (completeBatchAccountTransform batchIndex endTime duration processed failed) accounts

/-- The progress `updateOne` on the session's accounts array. -/
def progressUpdate (accounts : List AccountEntry) (accountId : String)
    (processedJobs progress : Nat) : List AccountEntry :=
  setFirst (fun a => a.accountId == accountId)
    (progressTransform processedJobs progress) accounts

/-- The full batch-completion persistence step: mark the batch completed
with its metrics, then advance the account's persisted progress. -/
def completeBatch (accounts : List AccountEntry) (accountId : String)
    (batchIndex endTime duration processed failed processedJobs progress : Nat) :
    List AccountEntry :=
  progressUpdate
    (completeBatchUpdate accounts accountId batchIndex endTime duration processed failed)
    accountId processedJobs progress

/-! ## Overall session status (server.js lines 2735-2763,
`GET /api/sync/parallel/status/:sessionId`) -/

/-- The status derivation of the session-status endpoint: count the
accounts whose status is `completed` and `failed`, then walk the if-else
chain `completed` / `failed` / `completed_with_errors` / `processing`. -/
def overallStatusOf (accounts : List AccountEntry) : String :=
  let totalAccounts := accounts.length
  let completedAccounts := (accounts.filter (fun acc => acc.status == "completed")).length
  let failedAccounts := (accounts.filter (fun acc => acc.status == "failed")).length
  if completedAccounts = totalAccounts then "completed"
  else if failedAccounts = totalAccounts then "failed"
  else if completedAccounts + failedAccounts = totalAccounts then "completed_with_errors"
  else "processing"

/-! ## Per-account parallel pipeline (server.js lines 2507-2640,
`POST /api/sync/parallel/account/:accountId`)

After a successful upstream fetch, the endpoint splits the filtered jobs
into batches and runs the nested loop of lines 2512-2621: each job's
database write is wrapped in `try { ... updatedJobsCount++; processedJobs++ }
catch { failedUpdatesCount++; processedJobs++ }`, so no per-job failure
escapes the loop; the final update (lines 2626-2640) then always sets the
account's status to `completed` with the accumulated counters.  The
per-job write outcome is modelled by `writeOk`. -/

/-- The three mutable counters of the batch loop. -/
structure PipeCounters where
  processedJobs : Nat
  updatedJobsCount : Nat
  failedUpdatesCount : Nat
deriving DecidableEq, Repr

/-- The per-job try/catch body (lines 2548-2570). -/
def processJob {α : Type} (writeOk : α → Bool) (c : PipeCounters) (job : α) : PipeCounters :=
  if writeOk job then
    { c with
        updatedJobsCount := c.updatedJobsCount + 1
        processedJobs := c.processedJobs + 1 }
  else
    { c with
        failedUpdatesCount := c.failedUpdatesCount + 1
        processedJobs := c.processedJobs + 1 }

/-- The nested batch loop, starting from zeroed counters. -/
def processBatches {α : Type} (writeOk : α → Bool) (batches : List (List α)) : PipeCounters :=
  batches.foldl (fun c batch => batch.foldl (processJob writeOk) c) ⟨0, 0, 0⟩

/-- The fields of the final `$set` on the account element
(lines 2630-2637). -/
structure AccountFinal where
  status : String
  processedJobs : Nat
  updatedJobs : Nat
  failedJobs : Nat
deriving DecidableEq, Repr

/-- The success path of the endpoint after the upstream fetch: chunk, run
the batch loop, and persist the final `completed` status with the
counters. -/
def parallelAccountRun {α : Type} (jobs : List α) (batchSize : Nat)
    (writeOk : α → Bool) : AccountFinal :=
  let batches := chunkList batchSize jobs
  let c := processBatches writeOk batches
  { status := "completed"
    processedJobs := c.processedJobs
    updatedJobs := c.updatedJobsCount
    failedJobs := c.failedUpdatesCount }

/-! ## Token lookup of the sync entry points (server.js lines 2433-2445
versus lines 458-465) -/

/-- An account document, reduced to its two token-bearing fields: the
field `workizApiToken` actually stored by the account CRUD endpoints, and
the field `workizToken` read only by the parallel account endpoint.
`none` models an absent (JS `undefined`) field. -/
structure Account where
  workizToken : Option String
  workizApiToken : Option String
deriving DecidableEq, Repr

/-- JS template-literal interpolation: an `undefined` field renders as the
string "undefined". -/
def jsInterp (v : Option String) : String :=
  match v with
  | none => "undefined"
  | some s => s

/-- JS truthiness test `!account.workizApiToken`: `undefined` and the empty
string are falsy. -/
def jsFalsy (v : Option String) : Bool :=
  match v with
  | none => true
  | some s => s.isEmpty

/-- What an endpoint does before calling upstream: reject with an HTTP
status, or issue a request to a URL. -/
inductive EndpointAction where
  | reject (status : Nat)
  | request (url : String)
deriving DecidableEq, Repr

/-- The URL built on server.js line 2438 from `account.workizToken`. -/
def parallelAccountFetchUrl (account : Account) (formattedStartDate : String) : String :=
  "https://api.workiz.com/api/v1/" ++ jsInterp account.workizToken ++
    "/job/all/?start_date=" ++ formattedStartDate ++ "&offset=0&records=100&only_open=true"

/-- `POST /api/sync/parallel/account/:accountId` pre-fetch behaviour: no
token check of any kind - it goes straight to building the URL and issuing
the request. -/
def parallelAccountPreFetch (account : Account) (formattedStartDate : String) :
    EndpointAction :=
  .request (parallelAccountFetchUrl account formattedStartDate)

/-- `POST /api/sync-jobs/:accountId` pre-fetch behaviour (lines 458-465):
a falsy `workizApiToken` is rejected with HTTP 400 before any upstream
call; otherwise the URL is built from `workizApiToken`. -/
def syncJobsPreFetch (account : Account) : EndpointAction :=
  if jsFalsy account.workizApiToken then .reject 400
  else
    .request ("https://api.workiz.com/api/v1/" ++ jsInterp account.workizApiToken ++
      "/job/all/?start_date=2025-01-01&offset=0&records=100&only_open=false")

/-! ## Theorems: helper lemmas and the settled claims -/

theorem cbWellFormed_mk0 (t r : Nat) : CBWellFormed (CircuitBreaker.mk0 t r) := by
  intro h
  rcases h with h | h <;> simp [CircuitBreaker.mk0] at h

theorem cbWellFormed_execute (cb : CircuitBreaker) (now : Nat) (b : Bool)
    (hwf : CBWellFormed cb) : CBWellFormed (cb.execute now b).1 := by
  have honS : ∀ c : CircuitBreaker, CBWellFormed c.onSuccess := by
    intro c h
    rcases h with h | h <;> simp [CircuitBreaker.onSuccess] at h
  have honF : ∀ c : CircuitBreaker,
      (c.state = .opened ∨ c.state = .halfOpen → c.failureThreshold ≤ c.failureCount) →
      CBWellFormed (c.onFailure now) := by
    intro c hc h
    refine ⟨?_, by simp [CircuitBreaker.onFailure]⟩
    simp only [CircuitBreaker.onFailure] at h ⊢
    by_cases hth : c.failureThreshold ≤ c.failureCount + 1
    · omega
    · simp only [if_neg hth] at h
      have := hc h
      omega
  cases hstate : cb.state with
  | closed =>
      cases b with
      | true =>
          simpa [CircuitBreaker.execute, CircuitBreaker.admission, hstate] using honS cb
      | false =>
          have := honF cb (by intro h; rcases h with h | h <;> simp [hstate] at h)
          simpa [CircuitBreaker.execute, CircuitBreaker.admission, hstate] using this
  | halfOpen =>
      cases b with
      | true =>
          simpa [CircuitBreaker.execute, CircuitBreaker.admission, hstate] using honS cb
      | false =>
          have := honF cb (fun _ => (hwf (Or.inr hstate)).1)
          simpa [CircuitBreaker.execute, CircuitBreaker.admission, hstate] using this
  | opened =>
      by_cases hcd : cb.cooldownElapsed now
      · cases b with
        | true =>
            simpa [CircuitBreaker.execute, CircuitBreaker.admission, hstate, hcd] using
              honS { cb with state := .halfOpen }
        | false =>
            have := honF { cb with state := .halfOpen }
              (fun _ => (hwf (Or.inl hstate)).1)
            simpa [CircuitBreaker.execute, CircuitBreaker.admission, hstate, hcd] using this
      · simpa [CircuitBreaker.execute, CircuitBreaker.admission, hstate, hcd] using hwf

/-- C1: the circuit breaker follows the specified state machine.  For every
reachable (well-formed) breaker and every call clock: (a) from `CLOSED` a
failing call moves to `OPEN` exactly when the failure count reaches the
threshold; (b) from `OPEN`, a call at least `recoveryTimeout` after
`lastFailureTime` first moves the breaker to `HALF_OPEN` and admits the
operation; (c) from `HALF_OPEN` a successful call closes the breaker and
resets the failure count; (d) from `HALF_OPEN` any failure returns to `OPEN`
with the cooldown clock reset to `now`; (e) while `OPEN` within the
cooldown, `execute` fails with the `CircuitOpenError` throw, leaves the
state unchanged, and never invokes the wrapped operation; and (f) the
well-formedness invariant is preserved by every call, so - holding for the
freshly constructed breaker by `cbWellFormed_mk0` - it holds along every
call sequence. -/
theorem circuit_breaker_state_machine (cb : CircuitBreaker) (now : Nat) (b : Bool)
    (hwf : CBWellFormed cb) :
    (cb.state = .closed →
      ((cb.execute now false).1.state = .opened ↔
        cb.failureThreshold ≤ cb.failureCount + 1)) ∧
    (cb.state = .opened → cb.cooldownElapsed now = true →
      (cb.admission now).1.state = .halfOpen ∧ (cb.admission now).2 = true) ∧
    (cb.state = .halfOpen →
      (cb.execute now true).1.state = .closed ∧
      (cb.execute now true).1.failureCount = 0) ∧
    (cb.state = .halfOpen →
      (cb.execute now false).1.state = .opened ∧
      (cb.execute now false).1.lastFailureTime = some now) ∧
    (cb.state = .opened → cb.cooldownElapsed now = false →
      cb.execute now b = (cb, .circuitOpenError, false)) ∧
    (CBWellFormed (cb.execute now b).1) := by
  refine ⟨?_, ?_, ?_, ?_, ?_, cbWellFormed_execute cb now b hwf⟩
  · intro hstate
    simp [CircuitBreaker.execute, CircuitBreaker.admission, hstate, CircuitBreaker.onFailure]
  · intro hstate hcd
    simp [CircuitBreaker.admission, hstate, hcd]
  · intro hstate
    simp [CircuitBreaker.execute, CircuitBreaker.admission, hstate, CircuitBreaker.onSuccess]
  · intro hstate
    have hcount := (hwf (Or.inr hstate)).1
    simp [CircuitBreaker.execute, CircuitBreaker.admission, hstate, CircuitBreaker.onFailure]
    omega
  · intro hstate hcd
    simp [CircuitBreaker.execute, CircuitBreaker.admission, hstate, hcd]

/-- Witness for C1 at a concrete breaker: the Workiz breaker
(`new CircuitBreaker(3, 600000)`) after three failures at time 1000,
exercised at time 700000 (cooldown elapsed). -/
theorem circuit_breaker_state_machine_witness :
    CBWellFormed ⟨3, 600000, 3, some 1000, .opened⟩ ∧
    ((⟨3, 600000, 3, some 1000, .opened⟩ : CircuitBreaker).state = .closed →
      (((⟨3, 600000, 3, some 1000, .opened⟩ : CircuitBreaker).execute 700000 false).1.state
          = .opened ↔ 3 ≤ 3 + 1)) ∧
    ((⟨3, 600000, 3, some 1000, .opened⟩ : CircuitBreaker).state = .opened →
      (⟨3, 600000, 3, some 1000, .opened⟩ : CircuitBreaker).cooldownElapsed 700000 = true →
      ((⟨3, 600000, 3, some 1000, .opened⟩ : CircuitBreaker).admission 700000).1.state = .halfOpen ∧
      ((⟨3, 600000, 3, some 1000, .opened⟩ : CircuitBreaker).admission 700000).2 = true) := by
  have h := circuit_breaker_state_machine ⟨3, 600000, 3, some 1000, .opened⟩ 700000 true
    (by decide)
  exact ⟨by decide, h.1, h.2.1⟩

/-- C4 (code bug): when every attempt fails with a 520-classified error,
`withRetry` does NOT raise the last error: after the final attempt it waits
another `10000 * 2^(maxRetries-1)` ms and then falls out of the loop,
returning `undefined` (the saved `lastError` on server.js line 107 is never
thrown).  The generic-error path, by contrast, does raise the last error on
the final attempt, as the claim states. -/
theorem retry_final_520_returns_undefined :
    RetryHandler.withRetry (fun _ => some ⟨false, true, 7⟩) 3 1000
        = (.returnedUndefined, [10000, 20000, 40000]) ∧
    RetryHandler.withRetry (fun _ => some ⟨false, false, 7⟩) 3 1000
        = (.raised ⟨false, false, 7⟩, [1000, 2000]) := by
  decide

/-- C5: for an operation whose failures are all 520-classified, `withRetry`
with 3 attempts waits exactly 10000 ms between attempts 1 and 2 and exactly
20000 ms between attempts 2 and 3, whatever the generic base delay is - the
520 schedule `10000 * 2^(attempt-1)` is used instead of
`delay * 2^(attempt-1)`. -/
theorem retry_520_backoff_schedule (delay : Nat) :
    ((RetryHandler.withRetry (fun _ => some ⟨false, true, 0⟩) 3 delay).2.take 2
        = [10000, 20000]) := by
  rfl

theorem chunkList_map_length {α : Type} (k : Nat) (l : List α) : k ≠ 0 →
    (chunkList k l).map List.length =
      List.replicate (l.length / k) k ++
        (if l.length % k = 0 then [] else [l.length % k]) := by
  induction k, l using chunkList.induct with
  | case1 n => intro _; simp [chunkList]
  | case2 head tail => intro h; exact absurd rfl h
  | case3 k x xs ih =>
      intro _
      rw [chunkList]
      set l : List α := x :: xs with hl
      have hlen : 1 ≤ l.length := by simp [hl]
      rcases Nat.lt_trichotomy l.length (k + 1) with hc | hc | hc
      · have hdrop : l.drop (k + 1) = [] := List.drop_eq_nil_of_le (by omega)
        have hmod : l.length % (k + 1) = l.length := Nat.mod_eq_of_lt hc
        have hdiv : l.length / (k + 1) = 0 := Nat.div_eq_of_lt hc
        simp [hdrop, chunkList, hmod, hdiv, Nat.min_eq_right (Nat.le_of_lt hc)]
      · have hdrop : l.drop (k + 1) = [] := List.drop_eq_nil_of_le (by omega)
        have hmod : l.length % (k + 1) = 0 := by
          rw [hc]
          exact Nat.mod_self (k + 1)
        have hdiv : l.length / (k + 1) = 1 := by
          rw [hc]
          exact Nat.div_self (Nat.succ_pos k)
        simp [hdrop, chunkList, hmod, hdiv, hc]
      · have hm : l.length = (k + 1) + (l.length - (k + 1)) := by omega
        have hlen_drop : (l.drop (k + 1)).length = l.length - (k + 1) := by simp
        rw [List.map_cons, ih (Nat.succ_ne_zero k), List.length_take,
          Nat.min_eq_left (Nat.le_of_lt hc), hlen_drop]
        conv_rhs => rw [hm]
        rw [Nat.add_comm (k + 1) (l.length - (k + 1)), Nat.add_div_right _ (Nat.succ_pos k),
          Nat.add_mod_right, List.replicate_succ, List.cons_append]

theorem chunkList_flatten {α : Type} (k : Nat) (l : List α) : k ≠ 0 →
    (chunkList k l).flatten = l := by
  induction k, l using chunkList.induct with
  | case1 n => intro _; simp [chunkList]
  | case2 head tail => intro h; exact absurd rfl h
  | case3 k x xs ih =>
      intro _
      rw [chunkList]
      rw [List.flatten_cons, ih (Nat.succ_ne_zero k)]
      exact List.take_append_drop _ _

theorem ceil_div_arith (k n : Nat) :
    n / (k + 1) + (if n % (k + 1) = 0 then 0 else 1) = (n + (k + 1) - 1) / (k + 1) := by
  have hqr := Nat.div_add_mod n (k + 1)
  have hr : n % (k + 1) < k + 1 := Nat.mod_lt _ (Nat.succ_pos k)
  have hnk : n + (k + 1) - 1 = (k + 1) * (n / (k + 1)) + (n % (k + 1) + k) := by omega
  rw [hnk, Nat.mul_add_div (Nat.succ_pos k)]
  by_cases h0 : n % (k + 1) = 0
  · rw [h0]
    simp [Nat.div_eq_of_lt (show k < k + 1 by omega)]
  · have hsplit : n % (k + 1) + k = (n % (k + 1) - 1) + (k + 1) := by omega
    rw [hsplit, Nat.add_div_right _ (Nat.succ_pos k),
      Nat.div_eq_of_lt (show n % (k + 1) - 1 < k + 1 by omega)]
    simp [h0]

theorem chunkList_length_eq {α : Type} (k : Nat) (l : List α) (hk : k ≠ 0) :
    (chunkList k l).length = (l.length + k - 1) / k := by
  obtain ⟨m, rfl⟩ : ∃ m, k = m + 1 := ⟨k - 1, by omega⟩
  have h : (chunkList (m + 1) l).length = ((chunkList (m + 1) l).map List.length).length := by
    simp
  rw [h, chunkList_map_length (m + 1) l hk, List.length_append, List.length_replicate]
  rw [← ceil_div_arith m l.length]
  by_cases h0 : l.length % (m + 1) = 0 <;> simp [h0]

theorem resumeRunGo_processes_range (fuel : Nat) :
    ∀ st : EntitySyncState,
      (st.nextBatchToProcess < st.totalBatches → st.status = "processing") →
      fuel = st.totalBatches - st.nextBatchToProcess →
      (resumeRunGo fuel st).1 = List.range' st.nextBatchToProcess fuel := by
  induction fuel with
  | zero => intro st _ _; simp [resumeRunGo]
  | succ n ih =>
      intro st hproc hfuel
      have hlt : st.nextBatchToProcess < st.totalBatches := by omega
      have hnb : nextBatch st = some st.nextBatchToProcess := by
        simp [nextBatch, hproc hlt, hlt]
      have hrec := ih (completeBatchES st st.nextBatchToProcess)
        (by
          intro hlt2
          simp only [completeBatchES] at hlt2 ⊢
          rw [if_neg (by omega)]
          exact hproc hlt)
        (by simp [completeBatchES]; omega)
      simp only [resumeRunGo, hnb, List.range'_succ]
      simp only [completeBatchES]
      simp only [completeBatchES] at hrec
      rw [hrec]

/-- C2: splitting N work items into batches of size K (the server.js
`jobs.slice(i, i + batchSize)` loop) yields exactly ceil(N/K) batches whose
sizes are K except for a final batch of N mod K when K does not divide N,
and concatenating the batches in index order restores the work list; and a
fresh invocation of the (spec-modelled) batch lifecycle driver reads the
persisted `nextBatchToProcess` pointer and processes exactly the remaining
batch indices, in order - no already-completed batch again. -/
theorem batch_partition_and_resume {α : Type} (k : Nat) (l : List α)
    (st : EntitySyncState) (hk : 0 < k) (hst : st.status = "processing") :
    ((chunkList k l).map List.length =
        List.replicate (l.length / k) k ++
          (if l.length % k = 0 then [] else [l.length % k])) ∧
    ((chunkList k l).length = (l.length + k - 1) / k) ∧
    ((chunkList k l).flatten = l) ∧
    ((resumeRun st).1 =
        List.range' st.nextBatchToProcess (st.totalBatches - st.nextBatchToProcess)) := by
  refine ⟨chunkList_map_length k l (by omega), chunkList_length_eq k l (by omega),
    chunkList_flatten k l (by omega), ?_⟩
  exact resumeRunGo_processes_range _ st (fun _ => hst) rfl

/-- Witness for C2 at the spec's concrete scenario: 35 records with batch
size 10 give exactly 4 batches of sizes 10, 10, 10, 5, and resuming the
4-batch entity state interrupted after batch 2 completed (persisted pointer
at index 2) processes exactly batches 3 and 4 (indices 2 and 3). -/
theorem batch_partition_and_resume_witness :
    0 < 10 ∧
    (⟨4, 2, some 1, "processing"⟩ : EntitySyncState).status = "processing" ∧
    (chunkList 10 (List.range 35)).map List.length = [10, 10, 10, 5] ∧
    (chunkList 10 (List.range 35)).length = 4 ∧
    (chunkList 10 (List.range 35)).flatten = List.range 35 ∧
    (resumeRun ⟨4, 2, some 1, "processing"⟩).1 = [2, 3] := by
  have h := batch_partition_and_resume 10 (List.range 35)
    ⟨4, 2, some 1, "processing"⟩ (by decide) rfl
  refine ⟨by decide, rfl, ?_, ?_, h.2.2.1, ?_⟩
  · have := h.1
    simpa using this
  · have := h.2.1
    simpa using this
  · have := h.2.2.2
    simpa [List.range'] using this

theorem mem_setFirst_of_neg {α : Type} {p : α → Bool} {f : α → α} {a : α}
    (ha : p a = false) : ∀ {l : List α}, a ∈ l → a ∈ setFirst p f l := by
  intro l hl
  induction l with
  | nil => cases hl
  | cons x xs ih =>
      rcases List.mem_cons.mp hl with rfl | hmem
      · simp only [setFirst, ha, Bool.false_eq_true, if_false]
        exact List.mem_cons_self _ _
      · by_cases hx : p x
        · simp only [setFirst, hx, if_true]
          exact List.mem_cons_of_mem _ hmem
        · simp only [setFirst, hx, if_false]
          exact List.mem_cons_of_mem _ (ih hmem)

theorem self_mem_setFirst {α : Type} {p : α → Bool} {r : α} :
    ∀ {l : List α}, l.any p = true → r ∈ setFirst p (fun _ => r) l := by
  intro l hl
  induction l with
  | nil => simp at hl
  | cons x xs ih =>
      by_cases hx : p x
      · simp only [setFirst, hx, if_true]
        exact List.mem_cons_self _ _
      · simp only [setFirst, hx, if_false]
        have : xs.any p = true := by
          simp only [List.any_cons, hx, Bool.false_or] at hl
          exact hl
        exact List.mem_cons_of_mem _ (ih this)

theorem mem_upsertOne_self (store : List Job) (r : Job) : r ∈ upsertOne store r := by
  unfold upsertOne
  by_cases h : store.any (fun s => s.uuid == r.uuid)
  · simp only [h, if_true]
    exact self_mem_setFirst h
  · simp only [h, Bool.false_eq_true, if_false]
    simp

theorem mem_upsertOne_of_ne {store : List Job} {a r : Job} (h : a.uuid ≠ r.uuid)
    (ha : a ∈ store) : a ∈ upsertOne store r := by
  unfold upsertOne
  by_cases hany : store.any (fun s => s.uuid == r.uuid)
  · simp only [hany, if_true]
    exact mem_setFirst_of_neg (by simpa using h) ha
  · simp only [hany, Bool.false_eq_true, if_false]
    exact List.mem_append_left _ ha

theorem mem_upsertAll_of_ne :
    ∀ (rs : List Job) (store : List Job) (a : Job), a ∈ store →
      (∀ r ∈ rs, a.uuid ≠ r.uuid) → a ∈ upsertAll store rs := by
  intro rs
  induction rs with
  | nil => intro store a ha _; exact ha
  | cons r rest ih =>
      intro store a ha hne
      have h1 : a ∈ upsertOne store r :=
        mem_upsertOne_of_ne (hne r (List.mem_cons_self _ _)) ha
      exact ih (upsertOne store r) a h1 (fun r' hr' => hne r' (List.mem_cons_of_mem _ hr'))

theorem mem_upsertAll_of_mem :
    ∀ (rs : List Job) (store : List Job), (rs.map Job.uuid).Nodup →
      ∀ r ∈ rs, r ∈ upsertAll store rs := by
  intro rs
  induction rs with
  | nil => intro store _ r hr; cases hr
  | cons r0 rest ih =>
      intro store hnd r hr
      have hnd' : (∀ x ∈ rest, ¬ x.uuid = r0.uuid) ∧ (rest.map Job.uuid).Nodup := by
        simpa [List.nodup_cons] using hnd
      rcases List.mem_cons.mp hr with rfl | hmem
      · have h1 : r ∈ upsertOne store r := mem_upsertOne_self store r
        have h2 : ∀ r' ∈ rest, r.uuid ≠ r'.uuid := by
          intro r' hr' heq
          exact hnd'.1 r' hr' heq.symm
        exact mem_upsertAll_of_ne rest (upsertOne store r) r h1 h2
      · exact ih (upsertOne store r0) hnd'.2 r hmem

/-- C3 (amended): each sync entry point upserts every upstream record onto
its stored set (by UUID) and deletes stored records older than the cutoff,
but the two entry points treat the remaining records differently.  The
sync-jobs path deletes every record older than the cutoff whether or not it
is in the upstream set, retains every within-window record, and never
schedules a verify-by-key fetch for anything.  The trigger-sync path gives
every within-window stored record an individual verify-by-key fetch,
deleting it only when the upstream reports it gone (and keeping it on fetch
errors). -/
theorem reconcile_upsert_delete_verify (store rs : List Job) (cutoff : Nat)
    (verify : String → VerifyResult) (hnodup : (rs.map Job.uuid).Nodup) :
    (∀ r ∈ rs, r ∈ upsertAll store rs) ∧
    (∀ j ∈ store, (∀ r ∈ rs, j.uuid ≠ r.uuid) → j ∈ upsertAll store rs) ∧
    (∀ j ∈ upsertAll store rs,
        (j ∈ (syncJobsReconcile store rs cutoff).finalStore ↔ ¬ j.jobDateTime < cutoff)) ∧
    (∀ j ∈ upsertAll store rs,
        (j ∈ (syncJobsReconcile store rs cutoff).deleted ↔ j.jobDateTime < cutoff)) ∧
    ((syncJobsReconcile store rs cutoff).verifyRequests = []) ∧
    (∀ j ∈ upsertAll store rs, ¬ j.jobDateTime < cutoff →
        j.uuid ∈ (triggerSyncReconcile store rs cutoff verify).verifiedUuids) ∧
    (∀ j ∈ upsertAll store rs, j.jobDateTime < cutoff →
        (processExisting cutoff verify j).1 = none) ∧
    (∀ j ∈ upsertAll store rs, ¬ j.jobDateTime < cutoff →
        verify j.uuid = .fetchError →
        j ∈ (triggerSyncReconcile store rs cutoff verify).finalStore) ∧
    (∀ j ∈ upsertAll store rs, ¬ j.jobDateTime < cutoff → ∀ fresh,
        verify j.uuid = .found fresh →
        fresh ∈ (triggerSyncReconcile store rs cutoff verify).finalStore) := by
  refine ⟨mem_upsertAll_of_mem rs store hnodup, ?_, ?_, ?_, rfl, ?_, ?_, ?_, ?_⟩
  · intro j hj hne
    exact mem_upsertAll_of_ne rs store j hj hne
  · intro j hj
    simp [syncJobsReconcile, List.mem_filter, hj]
  · intro j hj
    simp [syncJobsReconcile, List.mem_filter, hj]
  · intro j hj hold
    have hsnd : (processExisting cutoff verify j).2 = true := by
      cases hv : verify j.uuid <;> simp [processExisting, hold, hv]
    simp only [triggerSyncReconcile]
    exact List.mem_map_of_mem Job.uuid (List.mem_filter.mpr ⟨hj, hsnd⟩)
  · intro j _ hold
    simp [processExisting, hold]
  · intro j hj hold hfe
    simp only [triggerSyncReconcile]
    exact List.mem_filterMap.mpr ⟨j, hj, by simp [processExisting, hold, hfe]⟩
  · intro j hj hold fresh hfound
    simp only [triggerSyncReconcile]
    exact List.mem_filterMap.mpr ⟨j, hj, by simp [processExisting, hold, hfound]⟩

/-- C3 counterexample: for upstream set R = {A, B} and stored set S = {A, C}
with C inside the retention window (cutoff 50, C dated 90), the sync-jobs
reconciliation retains C but issues no verify-by-key request at all - C is
not "scheduled for an individual verify-by-key fetch" as the claim
states. -/
theorem sync_jobs_within_window_not_verified :
    (syncJobsReconcile [⟨"A", 100⟩, ⟨"C", 90⟩] [⟨"A", 100⟩, ⟨"B", 100⟩] 50).finalStore
        = [⟨"A", 100⟩, ⟨"C", 90⟩, ⟨"B", 100⟩] ∧
    (syncJobsReconcile [⟨"A", 100⟩, ⟨"C", 90⟩] [⟨"A", 100⟩, ⟨"B", 100⟩] 50).verifyRequests
        = [] := by
  decide

/-- Witness for C3 (amended) at R = {A, B}, S = {A, C}, cutoff 95: the
UUIDs of R are distinct, B is upserted, C (dated 90, older than the cutoff)
is deleted by the sync-jobs path, and no verify request is issued there. -/
theorem reconcile_upsert_delete_verify_witness :
    (([⟨"A", 100⟩, ⟨"B", 200⟩] : List Job).map Job.uuid).Nodup ∧
    (⟨"B", 200⟩ : Job) ∈ upsertAll [⟨"A", 100⟩, ⟨"C", 90⟩] [⟨"A", 100⟩, ⟨"B", 200⟩] ∧
    (⟨"C", 90⟩ : Job) ∈
      (syncJobsReconcile [⟨"A", 100⟩, ⟨"C", 90⟩] [⟨"A", 100⟩, ⟨"B", 200⟩] 95).deleted ∧
    (syncJobsReconcile [⟨"A", 100⟩, ⟨"C", 90⟩] [⟨"A", 100⟩, ⟨"B", 200⟩] 95).verifyRequests
        = [] := by
  have h := reconcile_upsert_delete_verify [⟨"A", 100⟩, ⟨"C", 90⟩]
    [⟨"A", 100⟩, ⟨"B", 200⟩] 95 (fun _ => VerifyResult.notFound) (by decide)
  refine ⟨by decide, h.1 ⟨"B", 200⟩ (by decide), ?_, h.2.2.2.2.1⟩
  have hC : (⟨"C", 90⟩ : Job) ∈ upsertAll [⟨"A", 100⟩, ⟨"C", 90⟩] [⟨"A", 100⟩, ⟨"B", 200⟩] :=
    h.2.1 ⟨"C", 90⟩ (by decide) (by decide)
  exact (h.2.2.2.1 ⟨"C", 90⟩ hC).mpr (by decide)

/-- C6 counterexample: a response with successful status 200 whose body is
an HTML error page is NOT detected - `syncJobsFetchOp` returns it to the
caller as valid data, although the sniffer itself classifies the body as an
HTML error page.  The claim that such a response "is never returned to the
caller as valid data" is false. -/
theorem status200_html_returned_as_valid :
    isHtmlErrorPage "Oops! Something went wrong" = true ∧
    syncJobsFetchOp (some ⟨200, "Oops! Something went wrong"⟩)
        = .ok ⟨200, "Oops! Something went wrong"⟩ :=
  ⟨rfl, rfl⟩

/-- C6 (amended): the response body is sniffed only when the HTTP status is
unsuccessful: a non-ok response whose body is an HTML error page is
reclassified as the 520 overload failure (as is an exact 520 status), while
every response with an ok status - whatever its body - is returned to the
caller as valid data. -/
theorem body_sniffing_only_on_error_status (r s : HttpResponse)
    (hok : respOk r = false) (hhtml : isHtmlErrorPage r.body = true)
    (hs : respOk s = true) :
    syncJobsFetchOp (some r) = .error .err520 ∧ syncJobsFetchOp (some s) = .ok s := by
  constructor
  · by_cases h520 : r.status = 520
    · simp [syncJobsFetchOp, fetchWithTimeout, h520]
    · simp [syncJobsFetchOp, fetchWithTimeout, h520, hok, hhtml]
  · have hs520 : s.status ≠ 520 := by
      simp only [respOk, Bool.and_eq_true, decide_eq_true_eq] at hs
      omega
    simp [syncJobsFetchOp, fetchWithTimeout, hs520, hs]

/-- Witness for C6 (amended): a 502 response with an HTML error body is
reclassified as the 520 failure; a 200 response is returned as-is. -/
theorem body_sniffing_only_on_error_status_witness :
    respOk ⟨502, "Oops! overloaded"⟩ = false ∧
    isHtmlErrorPage "Oops! overloaded" = true ∧
    respOk ⟨200, "payload"⟩ = true ∧
    syncJobsFetchOp (some ⟨502, "Oops! overloaded"⟩) = .error .err520 ∧
    syncJobsFetchOp (some ⟨200, "payload"⟩) = .ok ⟨200, "payload"⟩ := by
  have h := body_sniffing_only_on_error_status ⟨502, "Oops! overloaded"⟩ ⟨200, "payload"⟩
    (by decide) (by decide) (by decide)
  exact ⟨by decide, by decide, by decide, h.1, h.2⟩

theorem setAll_idem {α : Type} (p : α → Bool) (f : α → α)
    (hf : ∀ x, f (f x) = f x) (l : List α) :
    setAll p f (setAll p f l) = setAll p f l := by
  induction l with
  | nil => rfl
  | cons x xs ih =>
      simp only [setAll, List.map_cons] at ih ⊢
      rw [ih]
      by_cases hx : p x
      · simp only [hx, if_true]
        by_cases hfx : p (f x)
        · simp only [hfx, if_true, hf]
        · simp only [hfx, Bool.false_eq_true, if_false]
      · simp only [hx, Bool.false_eq_true, if_false]

theorem setFirst_idem {α : Type} (p : α → Bool) (f : α → α)
    (hf : ∀ x, f (f x) = f x) (hp : ∀ x, p (f x) = p x) (l : List α) :
    setFirst p f (setFirst p f l) = setFirst p f l := by
  induction l with
  | nil => rfl
  | cons x xs ih =>
      by_cases hx : p x
      · simp only [setFirst, hx, if_true, hp, hf]
      · simp only [setFirst, hx, Bool.false_eq_true, if_false, ih]

theorem setAll_setFirst_comm {α : Type} (p : α → Bool) (g h : α → α)
    (hcomm : ∀ x, g (h x) = h (g x)) (hpg : ∀ x, p (g x) = p x)
    (hph : ∀ x, p (h x) = p x) (l : List α) :
    setAll p g (setFirst p h l) = setFirst p h (setAll p g l) := by
  induction l with
  | nil => rfl
  | cons x xs ih =>
      simp only [setAll, List.map_cons] at ih ⊢
      by_cases hx : p x
      · simp [setFirst, hx, hph, hpg, hcomm]
      · simp [setFirst, hx, ih]

/-- C7: applying the batch-completion update twice with identical arguments
yields exactly the same persisted session state as applying it once - both
`$set` operations write fixed values, so the whole step is idempotent. -/
theorem completeBatch_idempotent (accounts : List AccountEntry) (accountId : String)
    (batchIndex endTime duration processed failed processedJobs progress : Nat) :
    completeBatch
        (completeBatch accounts accountId batchIndex endTime duration processed failed
          processedJobs progress)
        accountId batchIndex endTime duration processed failed processedJobs progress
      = completeBatch accounts accountId batchIndex endTime duration processed failed
          processedJobs progress := by
  have hfb : ∀ b, completeBatchEntryTransform endTime duration processed failed
      (completeBatchEntryTransform endTime duration processed failed b)
        = completeBatchEntryTransform endTime duration processed failed b :=
    fun b => rfl
  have hg : ∀ a, completeBatchAccountTransform batchIndex endTime duration processed failed
      (completeBatchAccountTransform batchIndex endTime duration processed failed a)
        = completeBatchAccountTransform batchIndex endTime duration processed failed a := by
    intro a
    simp only [completeBatchAccountTransform]
    rw [setAll_idem _ _ hfb]
  have hh : ∀ a, progressTransform processedJobs progress
      (progressTransform processedJobs progress a)
        = progressTransform processedJobs progress a :=
    fun a => rfl
  have hcomm : ∀ a, completeBatchAccountTransform batchIndex endTime duration processed failed
      (progressTransform processedJobs progress a)
        = progressTransform processedJobs progress
            (completeBatchAccountTransform batchIndex endTime duration processed failed a) :=
    fun a => rfl
  have hph : ∀ a : AccountEntry,
      ((progressTransform processedJobs progress a).accountId == accountId)
        = (a.accountId == accountId) :=
    fun a => rfl
  have hpg : ∀ a : AccountEntry,
      ((completeBatchAccountTransform batchIndex endTime duration processed failed
          a).accountId == accountId)
        = (a.accountId == accountId) :=
    fun a => rfl
  unfold completeBatch completeBatchUpdate progressUpdate
  rw [setAll_setFirst_comm _ _ _ hcomm hpg hph, setAll_idem _ _ hg,
    setFirst_idem _ _ hh hph]

theorem length_filter_add_le {α : Type} (l : List α) (p q : α → Bool)
    (hdis : ∀ a ∈ l, ¬(p a = true ∧ q a = true)) :
    (l.filter p).length + (l.filter q).length ≤ l.length := by
  induction l with
  | nil => simp
  | cons x xs ih =>
      have hx := hdis x (List.mem_cons_self _ _)
      have ih' := ih fun a ha => hdis a (List.mem_cons_of_mem _ ha)
      by_cases hp : p x <;> by_cases hq : q x <;>
        simp [List.filter_cons, hp, hq] at hx ⊢ <;> omega

theorem length_filter_add_eq_iff {α : Type} (l : List α) (p q : α → Bool)
    (hdis : ∀ a ∈ l, ¬(p a = true ∧ q a = true)) :
    ((l.filter p).length + (l.filter q).length = l.length ↔
      ∀ a ∈ l, p a = true ∨ q a = true) := by
  induction l with
  | nil => simp
  | cons x xs ih =>
      have hx := hdis x (List.mem_cons_self _ _)
      have hdis' : ∀ a ∈ xs, ¬(p a = true ∧ q a = true) :=
        fun a ha => hdis a (List.mem_cons_of_mem _ ha)
      have ih' := ih hdis'
      have hle := length_filter_add_le xs p q hdis'
      by_cases hp : p x
      · by_cases hq : q x
        · exact absurd ⟨hp, hq⟩ hx
        · simp [hp, hq]
          constructor
          · intro h
            exact ih'.mp (by omega)
          · intro h
            have := ih'.mpr h
            omega
      · by_cases hq : q x
        · simp [hp, hq]
          constructor
          · intro h
            exact ih'.mp (by omega)
          · intro h
            have := ih'.mpr h
            omega
        · simp [hp, hq]
          omega

/-- C8: for every non-empty session, the status endpoint derives
`overallStatus` as: `completed` iff every account is `completed`; `failed`
iff every account is `failed`; `completed_with_errors` iff the account set
partitions into the `completed` ones and the `failed` ones with both parts
present; otherwise `processing`.  (Every session is non-empty: the init
endpoint rejects an empty account list with 404 before creating one.) -/
theorem overall_status_derivation (accounts : List AccountEntry) (hne : accounts ≠ []) :
    (overallStatusOf accounts = "completed" ↔
      ∀ a ∈ accounts, a.status = "completed") ∧
    (overallStatusOf accounts = "failed" ↔
      ∀ a ∈ accounts, a.status = "failed") ∧
    (overallStatusOf accounts = "completed_with_errors" ↔
      ((∀ a ∈ accounts, a.status = "completed" ∨ a.status = "failed") ∧
       (∃ a ∈ accounts, a.status = "completed") ∧
       (∃ a ∈ accounts, a.status = "failed"))) ∧
    (overallStatusOf accounts = "processing" ↔
      (¬ (∀ a ∈ accounts, a.status = "completed") ∧
       ¬ (∀ a ∈ accounts, a.status = "failed") ∧
       ¬ ((∀ a ∈ accounts, a.status = "completed" ∨ a.status = "failed") ∧
          (∃ a ∈ accounts, a.status = "completed") ∧
          (∃ a ∈ accounts, a.status = "failed")))) := by
  obtain ⟨a0, ha0⟩ : ∃ a, a ∈ accounts := by
    cases accounts with
    | nil => exact absurd rfl hne
    | cons x xs => exact ⟨x, List.mem_cons_self _ _⟩
  have hdis : ∀ a ∈ accounts,
      ¬((a.status == "completed") = true ∧ (a.status == "failed") = true) := by
    intro a _ ⟨h1, h2⟩
    simp at h1 h2
    rw [h1] at h2
    exact absurd h2 (by decide)
  have hC : (accounts.filter (fun acc => acc.status == "completed")).length
      = accounts.length ↔ ∀ a ∈ accounts, a.status = "completed" := by
    rw [List.filter_length_eq_length]
    simp
  have hF : (accounts.filter (fun acc => acc.status == "failed")).length
      = accounts.length ↔ ∀ a ∈ accounts, a.status = "failed" := by
    rw [List.filter_length_eq_length]
    simp
  have hCF : ((accounts.filter (fun acc => acc.status == "completed")).length
        + (accounts.filter (fun acc => acc.status == "failed")).length
        = accounts.length) ↔
      ∀ a ∈ accounts, a.status = "completed" ∨ a.status = "failed" := by
    rw [length_filter_add_eq_iff _ _ _ hdis]
    simp
  by_cases h1 : (accounts.filter (fun acc => acc.status == "completed")).length
      = accounts.length
  · have hres : overallStatusOf accounts = "completed" := by
      simp only [overallStatusOf]
      rw [if_pos h1]
    have hallP := hC.mp h1
    have hnotallQ : ¬ ∀ a ∈ accounts, a.status = "failed" := by
      intro h
      have h1 := hallP a0 ha0
      have h2 := h a0 ha0
      rw [h1] at h2
      exact absurd h2 (by decide)
    have hnotpart : ¬ ((∀ a ∈ accounts, a.status = "completed" ∨ a.status = "failed") ∧
        (∃ a ∈ accounts, a.status = "completed") ∧
        (∃ a ∈ accounts, a.status = "failed")) := by
      rintro ⟨-, -, a, ha, hqa⟩
      have h1 := hallP a ha
      rw [h1] at hqa
      exact absurd hqa (by decide)
    refine ⟨iff_of_true hres hallP, iff_of_false (by rw [hres]; decide) hnotallQ,
      iff_of_false (by rw [hres]; decide) hnotpart,
      iff_of_false (by rw [hres]; decide) ?_⟩
    intro h
    exact h.1 hallP
  · have hnotallP : ¬ ∀ a ∈ accounts, a.status = "completed" := fun h => h1 (hC.mpr h)
    by_cases h2 : (accounts.filter (fun acc => acc.status == "failed")).length
        = accounts.length
    · have hres : overallStatusOf accounts = "failed" := by
        simp only [overallStatusOf]
        rw [if_neg h1, if_pos h2]
      have hallQ := hF.mp h2
      have hnotpart : ¬ ((∀ a ∈ accounts, a.status = "completed" ∨ a.status = "failed") ∧
          (∃ a ∈ accounts, a.status = "completed") ∧
          (∃ a ∈ accounts, a.status = "failed")) := by
        rintro ⟨-, ⟨a, ha, hpa⟩, -⟩
        have hq := hallQ a ha
        rw [hpa] at hq
        exact absurd hq (by decide)
      refine ⟨iff_of_false (by rw [hres]; decide) hnotallP,
        iff_of_true hres hallQ,
        iff_of_false (by rw [hres]; decide) hnotpart,
        iff_of_false (by rw [hres]; decide) ?_⟩
      intro h
      exact h.2.1 hallQ
    · have hnotallQ : ¬ ∀ a ∈ accounts, a.status = "failed" := fun h => h2 (hF.mpr h)
      by_cases h3 : (accounts.filter (fun acc => acc.status == "completed")).length
          + (accounts.filter (fun acc => acc.status == "failed")).length
          = accounts.length
      · have hres : overallStatusOf accounts = "completed_with_errors" := by
          simp only [overallStatusOf]
          rw [if_neg h1, if_neg h2, if_pos h3]
        have hcover := hCF.mp h3
        have hexQ : ∃ a ∈ accounts, a.status = "failed" := by
          have := hnotallP
          push_neg at this
          obtain ⟨a, ha, hpa⟩ := this
          exact ⟨a, ha, (hcover a ha).resolve_left hpa⟩
        have hexP : ∃ a ∈ accounts, a.status = "completed" := by
          have := hnotallQ
          push_neg at this
          obtain ⟨a, ha, hqa⟩ := this
          exact ⟨a, ha, (hcover a ha).resolve_right hqa⟩
        refine ⟨iff_of_false (by rw [hres]; decide) hnotallP,
          iff_of_false (by rw [hres]; decide) hnotallQ,
          iff_of_true hres ⟨hcover, hexP, hexQ⟩,
          iff_of_false (by rw [hres]; decide) ?_⟩
        intro h
        exact h.2.2 ⟨hcover, hexP, hexQ⟩
      · have hres : overallStatusOf accounts = "processing" := by
          simp only [overallStatusOf]
          rw [if_neg h1, if_neg h2, if_neg h3]
        have hnotpart : ¬ ((∀ a ∈ accounts, a.status = "completed" ∨ a.status = "failed") ∧
            (∃ a ∈ accounts, a.status = "completed") ∧
            (∃ a ∈ accounts, a.status = "failed")) := by
          rintro ⟨hcover, -, -⟩
          exact h3 (hCF.mpr hcover)
        exact ⟨iff_of_false (by rw [hres]; decide) hnotallP,
          iff_of_false (by rw [hres]; decide) hnotallQ,
          iff_of_false (by rw [hres]; decide) hnotpart,
          iff_of_true hres ⟨hnotallP, hnotallQ, hnotpart⟩⟩

/-- Witness for C8 on a concrete two-account session with one completed and
one failed account: the derived overall status is `completed_with_errors`. -/
theorem overall_status_derivation_witness :
    ([⟨"a1", "completed", 100, 5, 5, some 5, some 0, some 9, some 9, []⟩,
      ⟨"a2", "failed", 0, 0, 0, none, none, none, none, []⟩] : List AccountEntry) ≠ [] ∧
    overallStatusOf
      [⟨"a1", "completed", 100, 5, 5, some 5, some 0, some 9, some 9, []⟩,
       ⟨"a2", "failed", 0, 0, 0, none, none, none, none, []⟩] = "completed_with_errors" := by
  have h := overall_status_derivation
    [⟨"a1", "completed", 100, 5, 5, some 5, some 0, some 9, some 9, []⟩,
     ⟨"a2", "failed", 0, 0, 0, none, none, none, none, []⟩] (by decide)
  exact ⟨by decide, h.2.2.1.mpr (by decide)⟩

theorem foldl_processJob_counts {α : Type} (writeOk : α → Bool) :
    ∀ (jobs : List α) (c : PipeCounters),
      (jobs.foldl (processJob writeOk) c).processedJobs = c.processedJobs + jobs.length ∧
      (jobs.foldl (processJob writeOk) c).updatedJobsCount
        = c.updatedJobsCount + (jobs.filter writeOk).length ∧
      (jobs.foldl (processJob writeOk) c).failedUpdatesCount
        = c.failedUpdatesCount + (jobs.filter (fun j => !writeOk j)).length := by
  intro jobs
  induction jobs with
  | nil => intro c; simp
  | cons x xs ih =>
      intro c
      have h := ih (processJob writeOk c x)
      by_cases hx : writeOk x <;>
        simp [processJob, hx, List.filter_cons] at h ⊢ <;> omega

/-- C9: whenever the upstream fetch of the parallel account endpoint
succeeds, the pipeline terminates with the persisted account status
`completed` and `processedJobs` equal to the total filtered job count -
even when every individual per-job write fails, in which case `failedJobs`
equals the total and the status is still `completed`.  (The `failed` status
is written only by the endpoint's catch handler, which the per-job
try/catch never reaches.) -/
theorem parallel_account_run_completes {α : Type} (jobs : List α) (batchSize : Nat)
    (writeOk : α → Bool) (hk : 0 < batchSize) :
    parallelAccountRun jobs batchSize writeOk =
      { status := "completed"
        processedJobs := jobs.length
        updatedJobs := (jobs.filter writeOk).length
        failedJobs := (jobs.filter (fun j => !writeOk j)).length } ∧
    ((∀ j ∈ jobs, writeOk j = false) →
      (parallelAccountRun jobs batchSize writeOk).failedJobs = jobs.length ∧
      (parallelAccountRun jobs batchSize writeOk).status = "completed") := by
  have hflat : (chunkList batchSize jobs).flatten = jobs :=
    chunkList_flatten batchSize jobs (by omega)
  have hcounts := foldl_processJob_counts writeOk jobs ⟨0, 0, 0⟩
  have hpb : processBatches writeOk (chunkList batchSize jobs)
      = jobs.foldl (processJob writeOk) ⟨0, 0, 0⟩ := by
    rw [processBatches, ← List.foldl_flatten, hflat]
  have hmain : parallelAccountRun jobs batchSize writeOk =
      { status := "completed"
        processedJobs := jobs.length
        updatedJobs := (jobs.filter writeOk).length
        failedJobs := (jobs.filter (fun j => !writeOk j)).length } := by
    simp only [parallelAccountRun, hpb]
    rcases hcounts with ⟨h1, h2, h3⟩
    simp at h1 h2 h3
    simp [h1, h2, h3]
  refine ⟨hmain, fun hall => ?_⟩
  have hfilter : (jobs.filter (fun j => !writeOk j)).length = jobs.length := by
    rw [List.filter_length_eq_length]
    intro a ha
    simp [hall a ha]
  rw [hmain]
  exact ⟨hfilter, rfl⟩

/-- Witness for C9: three jobs, batch size 2, every write failing - the run
still ends `completed` with all three jobs processed and all three
failed. -/
theorem parallel_account_run_completes_witness :
    0 < 2 ∧
    (∀ j ∈ ([1, 2, 3] : List Nat), (fun _ => false) j = false) ∧
    parallelAccountRun ([1, 2, 3] : List Nat) 2 (fun _ => false)
      = ⟨"completed", 3, 0, 3⟩ := by
  have h := parallel_account_run_completes ([1, 2, 3] : List Nat) 2
    (fun _ => false) (by decide)
  refine ⟨by decide, by simp, ?_⟩
  rw [h.1]
  decide

/-- C10: the parallel account endpoint reads `workizToken` while the other
sync entry points read `workizApiToken` and reject a missing token with
HTTP 400 before calling upstream; so for an account without a
`workizToken` field the parallel endpoint performs no token check and
issues an upstream request whose token segment is the literal string
"undefined". -/
theorem parallel_endpoint_undefined_token (account : Account) (d : String)
    (h : account.workizToken = none) :
    parallelAccountPreFetch account d =
      .request ("https://api.workiz.com/api/v1/undefined/job/all/?start_date=" ++ d ++
        "&offset=0&records=100&only_open=true") ∧
    (∀ a2 : Account, a2.workizApiToken = none → syncJobsPreFetch a2 = .reject 400) := by
  constructor
  · simp [parallelAccountPreFetch, parallelAccountFetchUrl, jsInterp, h]
  · intro a2 h2
    simp [syncJobsPreFetch, jsFalsy, h2]

/-- Witness for C10 at an account that stores `workizApiToken` but no
`workizToken` field. -/
theorem parallel_endpoint_undefined_token_witness :
    (Account.mk none none).workizToken = none ∧
    parallelAccountPreFetch (Account.mk none none) "2025-09-27" =
      .request ("https://api.workiz.com/api/v1/undefined/job/all/?start_date=" ++
        "2025-09-27" ++ "&offset=0&records=100&only_open=true") ∧
    syncJobsPreFetch (Account.mk none none) = .reject 400 := by
  have h := parallel_endpoint_undefined_token (Account.mk none none) "2025-09-27" rfl
  exact ⟨rfl, h.1, h.2 (Account.mk none none) rfl⟩

end WorkizSync
